import Mathlib

/-!
Verification of the skyblock bazaar flip service: a shallow embedding of
the backend derivation engine (`getBazaarData` and `parseNum` in the
backend server), the result cache and served endpoint, and the client
filter/sort engine (`App.jsx`).  JavaScript numbers are modelled as exact
rationals (ℚ), JavaScript strings as `List Char`, and `null`/`NaN` as
explicit `Option`/sentinel constructors.
-/

namespace SkyblockFlips

/-! ## Data model: raw quotes from the upstream snapshot -/

/-- One entry of a buy/sell order-book summary: `{ pricePerUnit }`. -/
structure SummaryEntry where
  pricePerUnit : ℚ
deriving DecidableEq

/-- The rolling weekly volume counters of a product's `quick_status`. -/
structure QuickStatus where
  buyMovingWeek : ℚ
  sellMovingWeek : ℚ
deriving DecidableEq

/-- One product of the upstream snapshot: identifier, order books and
volume counters.  The order books are best-price-first lists. -/
structure Product where
  product_id : String
  buy_summary : List SummaryEntry
  sell_summary : List SummaryEntry
  quick_status : QuickStatus
deriving DecidableEq

/-- A derived flip record, exactly the object pushed onto `cards` by
`getBazaarData`.  Field names follow the source: `buy` stores the
engine's `sellPrice` (the low reference price) and `sell` stores the
engine's `buyPrice` (the high reference price). -/
structure Card where
  id : String
  title : String
  buy : ℚ
  sell : ℚ
  instabuy : ℚ
  instasell : ℚ
  margin : ℚ
  coinsPerHour : ℚ
  href : String
  img : String
  raw : String
deriving DecidableEq

/-! ## Derivation engine -/

/-- Mean of the top `count` prices of a summary; `0` when the summary is
empty.  Mirrors the `getMeanPrice` helper of `getBazaarData` (default
`count = 5` as in the source; every call site passes `1`). -/
def getMeanPrice (summary : List SummaryEntry) (count : ℕ := 5) : ℚ :=
  if summary.isEmpty then 0
  else
    let limit := min summary.length count
    (((summary.take limit).map (fun e => e.pricePerUnit)).sum) / (limit : ℚ)

/-- JavaScript `Math.round`: round half toward positive infinity. -/
def jsRound (q : ℚ) : ℚ := ((⌊q + 1/2⌋ : ℤ) : ℚ)

/-- The tax multiplier `1 - (taxRate / 100)` computed by `getBazaarData`. -/
def taxMultiplier (taxRate : ℚ) : ℚ := 1 - taxRate / 100

/-- The engine's margin computation: `(buyPrice * taxMultiplier) - sellPrice`,
with `buyPrice` the high reference price and `sellPrice` the low one. -/
def marginCalc (taxRate buyPrice sellPrice : ℚ) : ℚ :=
  buyPrice * taxMultiplier taxRate - sellPrice

/-- The spec's formula for the tax-adjusted margin, written exactly as in
the specification: `highPrice * (1 - taxRatePercent/100) - lowPrice`. -/
def marginSpecFormula (taxRatePercent highPrice lowPrice : ℚ) : ℚ :=
  highPrice * (1 - taxRatePercent / 100) - lowPrice

/-- High reference price: mean of the top 1 price of the buy-order book
(the source's `buyPrice` variable). -/
def buyPriceOf (p : Product) : ℚ := getMeanPrice p.buy_summary 1

/-- Low reference price: mean of the top 1 price of the sell-order book
(the source's `sellPrice` variable). -/
def sellPriceOf (p : Product) : ℚ := getMeanPrice p.sell_summary 1

/-- Rendering of a product's `quick_status` used for the opaque `raw`
field; stands for `JSON.stringify(quick_status)` in the source. -/
def jsonQuickStatus (qs : QuickStatus) : String :=
  "\x7b\"buyMovingWeek\":" ++ toString qs.buyMovingWeek ++
    ",\"sellMovingWeek\":" ++ toString qs.sellMovingWeek ++ "\x7d"

/-- The per-product body of the `Object.values(products).forEach` loop in
`getBazaarData`: compute the reference prices, skip the product when
either is non-positive, compute margin and hourly rates, and emit a card
exactly when `margin > 0` and `min(instabuyHourly, instasellHourly) > 10`. -/
def deriveCard (taxRate : ℚ) (product : Product) : Option Card :=
  let buyPrice := getMeanPrice product.buy_summary 1
  let sellPrice := getMeanPrice product.sell_summary 1
  if buyPrice ≤ 0 ∨ sellPrice ≤ 0 then none
  else
    let margin := buyPrice * taxMultiplier taxRate - sellPrice
    let instabuyHourly := jsRound (product.quick_status.buyMovingWeek / 168)
    let instasellHourly := jsRound (product.quick_status.sellMovingWeek / 168)
    let coinsPerHour := margin * min instabuyHourly instasellHourly
    if margin > 0 ∧ min instabuyHourly instasellHourly > 10 then
      some
        { id := product.product_id
          title := String.map (fun c => if c = '_' then ' ' else c) product.product_id
          buy := sellPrice
          sell := buyPrice
          instabuy := instabuyHourly
          instasell := instasellHourly
          margin := margin
          coinsPerHour := coinsPerHour
          href := "https://skyblock.bz/product/" ++ product.product_id
          img := "https://sky.coflnet.com/static/icon/" ++ product.product_id
          raw := jsonQuickStatus product.quick_status }
    else none

/-- The comparison used by `cards.sort((a, b) => b.coinsPerHour - a.coinsPerHour)`:
a consistent comparator on numbers, hence a stable sort by descending
`coinsPerHour`. -/
def cphDescLE (a b : Card) : Bool := decide (b.coinsPerHour ≤ a.coinsPerHour)

/-- The full per-snapshot pipeline of `getBazaarData` after a successful
fetch: derive cards product by product, sort them by descending
`coinsPerHour` (JavaScript `Array.prototype.sort` is stable), and keep
the top 100. -/
def deriveCards (taxRate : ℚ) (products : List Product) : List Card :=
  ((products.filterMap (deriveCard taxRate)).mergeSort cphDescLE).take 100

/-! ## Numeric string parsing: the shared parseNum helper

JavaScript strings are modelled as lists of characters, `null` as
`Option.none`, and a `NaN` result as an explicit sentinel.  `parseFloat`
is modelled on its decimal fragment (optional sign, digits, optional
fraction; leading whitespace skipped, trailing garbage ignored), which
covers every input the repository feeds it. -/

/-- Whitespace recognised by JavaScript `trim` and `parseFloat`. -/
def isJsWhitespace (c : Char) : Bool :=
  c == ' ' || c == '\t' || c == '\n' || c == '\r' || c == '\x0b' || c == '\x0c'

/-- JavaScript `String.prototype.trim`: strip whitespace at both ends. -/
def trimChars (l : List Char) : List Char :=
  (((l.dropWhile isJsWhitespace).reverse).dropWhile isJsWhitespace).reverse

/-- The normalisation pipeline of `parseNum`:
`str.trim().toLowerCase().replace(/,/g, '')`. -/
def normalizeChars (l : List Char) : List Char :=
  ((trimChars l).map Char.toLower).filter (fun c => c != ',')

/-- Numeric value of a decimal digit character. -/
def digitVal (c : Char) : ℕ := c.toNat - '0'.toNat

/-- Value of a digit string read as a natural number. -/
def decValue (ds : List Char) : ℕ := ds.foldl (fun a c => 10 * a + digitVal c) 0

/-- Value of a digit string read as a fractional part (digits after the
decimal point). -/
def fracValue (ds : List Char) : ℚ :=
  ds.foldr (fun c a => ((digitVal c : ℚ) + a) / 10) 0

/-- Magnitude part of `parseFloat`: longest prefix of digits, optionally
followed by a point and more digits; fails when no digit is found. -/
def jsParseFloatMag (l : List Char) : Option ℚ :=
  let ip := l.takeWhile Char.isDigit
  let r := l.dropWhile Char.isDigit
  let fp := match r with
    | '.' :: r2 => r2.takeWhile Char.isDigit
    | _ => []
  if ip.isEmpty && fp.isEmpty then none
  else some ((decValue ip : ℚ) + fracValue fp)

/-- JavaScript `parseFloat` on its decimal fragment: skip leading
whitespace, read an optional sign and the longest decimal-literal
prefix; `none` models a `NaN` result.  (The exponent and `Infinity`
forms are never produced by the repository's inputs.) -/
def jsParseFloat (l : List Char) : Option ℚ :=
  match l.dropWhile isJsWhitespace with
  | '-' :: r => (jsParseFloatMag r).map (fun q => -q)
  | '+' :: r => jsParseFloatMag r
  | l' => jsParseFloatMag l'

/-- A JavaScript value passed to `parseNum`: a number, a string, `null`
or `undefined`. -/
inductive JSVal where
  | num (q : ℚ)
  | str (s : List Char)
  | null
  | undef

/-- JavaScript truthiness test used by the guard `if (!str) return null`:
`0`, the empty string, `null` and `undefined` are falsy. -/
def jsFalsy : JSVal → Bool
  | .num q => q == 0
  | .str s => s.isEmpty
  | .null => true
  | .undef => true

/-- JavaScript coercion `str.toString()` applied by `parseNum` after the
falsiness guard. -/
def jsValToChars : JSVal → List Char
  | .num q => (toString q).toList
  | .str s => s
  | .null => "null".toList
  | .undef => "undefined".toList

/-- The result of `parseNum` when it is not `null`: a number or `NaN`
(the suffixed branches return `parseFloat(str) * 1e3` and friends, which
is `NaN` when `parseFloat` failed). -/
inductive NumOrNaN where
  | nan
  | val (q : ℚ)
deriving DecidableEq

/-- Multiply a `parseFloat` result by a suffix multiplier, propagating
`NaN`. -/
def mulOrNaN : Option ℚ → ℚ → NumOrNaN
  | none, _ => .nan
  | some q, m => .val (q * m)

/-- The shared `parseNum` helper of both backend servers: falsy inputs
give `null`; the input is trimmed, lower-cased and stripped of commas; a
bare dash gives `null`; a trailing k/m/b multiplies the parsed value by
1e3/1e6/1e9; otherwise the parsed value is returned, with `NaN` mapped
to `null`. -/
def parseNum (v : JSVal) : Option NumOrNaN :=
  if jsFalsy v then none
  else
    let str := normalizeChars (jsValToChars v)
    if str = ['-'] then none
    else
      let suffix := str.getLast?
      if suffix = some 'k' then some (mulOrNaN (jsParseFloat str) 1000)
      else if suffix = some 'm' then some (mulOrNaN (jsParseFloat str) 1000000)
      else if suffix = some 'b' then some (mulOrNaN (jsParseFloat str) 1000000000)
      else
        match jsParseFloat str with
        | none => none
        | some q => some (.val q)

/-- The three suffix letters recognised by `parseNum` in either case,
with their multipliers. -/
def suffixMultipliers : List (Char × ℚ) :=
  [('k', 1000), ('K', 1000), ('m', 1000000), ('M', 1000000),
   ('b', 1000000000), ('B', 1000000000)]

/-! ### Helper lemmas about parseNum -/

lemma dropWhile_eq_self_of_all {p : Char → Bool} {l : List Char}
    (h : ∀ c ∈ l, p c = false) : l.dropWhile p = l := by
  cases l with
  | nil => rfl
  | cons a as => simp [List.dropWhile_cons, h a (List.mem_cons_self a as)]

lemma trimChars_eq_self {l : List Char}
    (h : ∀ c ∈ l, isJsWhitespace c = false) : trimChars l = l := by
  unfold trimChars
  rw [dropWhile_eq_self_of_all h]
  rw [dropWhile_eq_self_of_all (by intro c hc; exact h c (List.mem_reverse.mp hc))]
  exact List.reverse_reverse l

lemma filter_comma_map_toLower (l : List Char) :
    ((l.filter (fun c => c != ',')).map Char.toLower).filter (fun c => c != ',')
      = (l.map Char.toLower).filter (fun c => c != ',') := by
  rw [List.filter_map, List.filter_map, List.filter_filter]
  congr 1
  apply List.filter_congr
  intro c _
  by_cases hc : c = ','
  · subst hc
    rfl
  · simp [Function.comp, hc]

lemma normalizeChars_filter_comma (l : List Char)
    (h : ∀ c ∈ l, isJsWhitespace c = false) :
    normalizeChars (l.filter (fun c => c != ',')) = normalizeChars l := by
  unfold normalizeChars
  rw [trimChars_eq_self h, trimChars_eq_self
    (by intro c hc; exact h c (List.mem_of_mem_filter hc))]
  exact filter_comma_map_toLower l

lemma parseNum_suffix_branch (l : List Char) (c : Char) (mult : ℚ)
    (hl : l ≠ [])
    (hlast : (normalizeChars l).getLast? = some c)
    (hc : (c = 'k' ∧ mult = 1000) ∨ (c = 'm' ∧ mult = 1000000)
          ∨ (c = 'b' ∧ mult = 1000000000)) :
    parseNum (.str l) = some (mulOrNaN (jsParseFloat (normalizeChars l)) mult) := by
  have hfalsy : jsFalsy (.str l) = false := by
    simp [jsFalsy, List.isEmpty_iff, hl]
  have hdash : normalizeChars l ≠ ['-'] := by
    intro hd
    rw [hd] at hlast
    have hcd : '-' = c := by simpa using hlast
    rcases hc with ⟨h, -⟩ | ⟨h, -⟩ | ⟨h, -⟩ <;> rw [← hcd] at h <;> simp at h
  rcases hc with ⟨hck, hm⟩ | ⟨hcm, hm⟩ | ⟨hcb, hm⟩
  · subst hck hm
    simp [parseNum, hfalsy, jsValToChars, hdash, hlast]
  · subst hcm hm
    simp [parseNum, hfalsy, jsValToChars, hdash, hlast]
  · subst hcb hm
    simp [parseNum, hfalsy, jsValToChars, hdash, hlast]

lemma parseNum_default_branch (l : List Char)
    (hlast : ∀ c, (normalizeChars l).getLast? = some c →
      c ≠ 'k' ∧ c ≠ 'm' ∧ c ≠ 'b') :
    parseNum (.str l) = match jsParseFloat (normalizeChars l) with
      | none => none
      | some q => some (.val q) := by
  by_cases hl : l = []
  · subst hl
    rfl
  have hfalsy : jsFalsy (.str l) = false := by
    simp [jsFalsy, List.isEmpty_iff, hl]
  by_cases hdash : normalizeChars l = ['-']
  · rw [hdash]
    have hpf : jsParseFloat ['-'] = none := rfl
    rw [hpf]
    simp [parseNum, hfalsy, jsValToChars, hdash]
  cases hgl : (normalizeChars l).getLast? with
  | none =>
    simp [parseNum, hfalsy, jsValToChars, hdash, hgl]
  | some c =>
    obtain ⟨hk, hm, hb⟩ := hlast c hgl
    simp [parseNum, hfalsy, jsValToChars, hdash, hgl, hk, hm, hb]

lemma parseNum_strips_commas (l : List Char)
    (h : ∀ c ∈ l, isJsWhitespace c = false) :
    parseNum (.str l) = parseNum (.str (l.filter (fun c => c != ','))) := by
  have hkey := normalizeChars_filter_comma l h
  by_cases h0 : l = []
  · subst h0
    rfl
  by_cases h1 : l.filter (fun c => c != ',') = []
  · have hnl : normalizeChars l = [] := by
      rw [← hkey, h1]
      rfl
    have hrhs : parseNum (.str (l.filter (fun c => c != ','))) = none := by
      rw [h1]
      rfl
    rw [hrhs]
    have hfalsy : jsFalsy (.str l) = false := by
      simp [jsFalsy, List.isEmpty_iff, h0]
    simp [parseNum, hfalsy, jsValToChars, hnl]
    rfl
  · have hf1 : jsFalsy (.str l) = false := by
      simp [jsFalsy, List.isEmpty_iff, h0]
    have hf2 : jsFalsy (.str (l.filter (fun c => c != ','))) = false := by
      simp [jsFalsy, List.isEmpty_iff, h1]
    simp only [parseNum, hf1, hf2, jsValToChars, Bool.false_eq_true, if_false, hkey]

lemma normalizeChars_getLast_concat (l₀ : List Char) (c : Char)
    (hws : ∀ x ∈ l₀ ++ [c], isJsWhitespace x = false)
    (hc : (Char.toLower c != ',') = true) :
    (normalizeChars (l₀ ++ [c])).getLast? = some (Char.toLower c) := by
  unfold normalizeChars
  rw [trimChars_eq_self hws, List.map_append, List.filter_append]
  simp [hc]

/-! ### C6 and C10: behaviour of parseNum -/

/-- C6 (amended): on whitespace-free input `parseNum` ignores comma
thousands separators; a trailing k/m/b suffix letter of either case
multiplies the parsed value by 1e3/1e6/1e9; an input normalising to a
bare dash yields null; a suffix-free input whose remainder is not
numeric yields null; but a k/m/b-suffixed input whose remainder is not
numeric yields NaN, not null. -/
theorem c6_parseNum_amended :
    (∀ l : List Char, (∀ c ∈ l, isJsWhitespace c = false) →
        parseNum (.str l) = parseNum (.str (l.filter (fun c => c != ','))))
    ∧ (∀ (l₀ : List Char) (c : Char) (mult q : ℚ),
        (c, mult) ∈ suffixMultipliers →
        (∀ x ∈ l₀ ++ [c], isJsWhitespace x = false) →
        jsParseFloat (normalizeChars (l₀ ++ [c])) = some q →
        parseNum (.str (l₀ ++ [c])) = some (.val (q * mult)))
    ∧ (∀ l : List Char, normalizeChars l = ['-'] → parseNum (.str l) = none)
    ∧ (∀ l : List Char,
        (∀ c, (normalizeChars l).getLast? = some c →
          c ≠ 'k' ∧ c ≠ 'm' ∧ c ≠ 'b') →
        jsParseFloat (normalizeChars l) = none → parseNum (.str l) = none)
    ∧ (∀ (l : List Char) (c : Char), (normalizeChars l).getLast? = some c →
        (c = 'k' ∨ c = 'm' ∨ c = 'b') →
        jsParseFloat (normalizeChars l) = none →
        parseNum (.str l) = some .nan) := by
  refine ⟨parseNum_strips_commas, ?_, ?_, ?_, ?_⟩
  · intro l₀ c mult q htab hws hq
    have hne : l₀ ++ [c] ≠ [] := by simp
    simp only [suffixMultipliers, List.mem_cons, Prod.mk.injEq,
      List.not_mem_nil, or_false] at htab
    rcases htab with ⟨hc, hm⟩ | ⟨hc, hm⟩ | ⟨hc, hm⟩ | ⟨hc, hm⟩ | ⟨hc, hm⟩ | ⟨hc, hm⟩
    all_goals subst hc
    all_goals subst hm
    · rw [parseNum_suffix_branch _ _ _ hne
        (normalizeChars_getLast_concat l₀ _ hws (by decide))
        (Or.inl ⟨by decide, rfl⟩), hq]
      rfl
    · rw [parseNum_suffix_branch _ _ _ hne
        (normalizeChars_getLast_concat l₀ _ hws (by decide))
        (Or.inl ⟨by decide, rfl⟩), hq]
      rfl
    · rw [parseNum_suffix_branch _ _ _ hne
        (normalizeChars_getLast_concat l₀ _ hws (by decide))
        (Or.inr (Or.inl ⟨by decide, rfl⟩)), hq]
      rfl
    · rw [parseNum_suffix_branch _ _ _ hne
        (normalizeChars_getLast_concat l₀ _ hws (by decide))
        (Or.inr (Or.inl ⟨by decide, rfl⟩)), hq]
      rfl
    · rw [parseNum_suffix_branch _ _ _ hne
        (normalizeChars_getLast_concat l₀ _ hws (by decide))
        (Or.inr (Or.inr ⟨by decide, rfl⟩)), hq]
      rfl
    · rw [parseNum_suffix_branch _ _ _ hne
        (normalizeChars_getLast_concat l₀ _ hws (by decide))
        (Or.inr (Or.inr ⟨by decide, rfl⟩)), hq]
      rfl
  · intro l hd
    have hl : l ≠ [] := by
      intro h
      subst h
      exact absurd hd (by decide)
    simp [parseNum, jsFalsy, List.isEmpty_iff, hl, jsValToChars, hd]
  · intro l hlast hnone
    rw [parseNum_default_branch l hlast, hnone]
  · intro l c hlast hc hnone
    have hl : l ≠ [] := by
      intro h
      subst h
      rw [show normalizeChars ([] : List Char) = [] from rfl] at hlast
      simp at hlast
    rcases hc with h | h | h
    · rw [parseNum_suffix_branch l c 1000 hl hlast (Or.inl ⟨h, rfl⟩), hnone]
      rfl
    · rw [parseNum_suffix_branch l c 1000000 hl hlast
        (Or.inr (Or.inl ⟨h, rfl⟩)), hnone]
      rfl
    · rw [parseNum_suffix_branch l c 1000000000 hl hlast
        (Or.inr (Or.inr ⟨h, rfl⟩)), hnone]
      rfl

/-- Witness for C6 at concrete inputs: commas stripped in "1,234", the
upper-case suffix of "2K" multiplies by 1000, " - " normalises to a bare
dash and yields null, non-numeric "abc" yields null, and suffixed
non-numeric "abck" yields NaN. -/
theorem c6_parseNum_amended_witness :
    ((∀ c ∈ ("1,234".toList), isJsWhitespace c = false)
      ∧ parseNum (.str ("1,234".toList)) = parseNum (.str ("1234".toList)))
    ∧ (('K', (1000 : ℚ)) ∈ suffixMultipliers
      ∧ jsParseFloat (normalizeChars (['2'] ++ ['K'])) = some 2
      ∧ parseNum (.str (['2'] ++ ['K'])) = some (.val (2 * 1000))
      ∧ (2 : ℚ) * 1000 = 2000)
    ∧ (normalizeChars (" - ".toList) = ['-']
      ∧ parseNum (.str (" - ".toList)) = none)
    ∧ (jsParseFloat (normalizeChars ("abc".toList)) = none
      ∧ parseNum (.str ("abc".toList)) = none)
    ∧ ((normalizeChars ("abck".toList)).getLast? = some 'k'
      ∧ parseNum (.str ("abck".toList)) = some .nan) := by
  have hq2 : jsParseFloat (normalizeChars (['2'] ++ ['K'])) = some 2 := by
    rw [show jsParseFloat (normalizeChars (['2'] ++ ['K']))
        = some ((decValue ['2'] : ℚ) + fracValue []) from rfl]
    norm_num [show decValue ['2'] = 2 from by decide,
      show fracValue [] = (0 : ℚ) from rfl]
  refine ⟨⟨by decide, ?_⟩, ⟨by decide, hq2, ?_, by norm_num⟩,
    ⟨by decide, ?_⟩, ⟨rfl, ?_⟩, ⟨rfl, ?_⟩⟩
  · exact c6_parseNum_amended.1 _ (by decide)
  · exact c6_parseNum_amended.2.1 ['2'] 'K' 1000 2 (by decide) (by decide) hq2
  · exact c6_parseNum_amended.2.2.1 _ (by decide)
  · refine c6_parseNum_amended.2.2.2.1 _ ?_ rfl
    intro c hc
    rw [show (normalizeChars ("abc".toList)).getLast? = some 'c' from rfl] at hc
    cases hc
    exact ⟨by decide, by decide, by decide⟩
  · exact c6_parseNum_amended.2.2.2.2 _ 'k' rfl (Or.inl rfl) rfl

/-- Counterexample to C6 as stated: the input "abck" has a non-numeric
remainder before its k suffix, yet `parseNum` returns NaN (a number
value), not null. -/
theorem c6_counterexample_suffixed_nan :
    parseNum (.str ("abck".toList)) = some NumOrNaN.nan
    ∧ parseNum (.str ("abck".toList)) ≠ none := by
  refine ⟨rfl, ?_⟩
  rw [show parseNum (.str ("abck".toList)) = some NumOrNaN.nan from rfl]
  simp

/-- C10: every falsy input to `parseNum` — the number 0, the empty
string, null and undefined — yields null, so a literal numeric zero is
collapsed into the missing sentinel at this parsing boundary. -/
theorem c10_falsy_inputs_yield_null :
    parseNum (.num 0) = none ∧ parseNum (.str []) = none
    ∧ parseNum .null = none ∧ parseNum .undef = none :=
  ⟨rfl, rfl, rfl, rfl⟩

/-! ## Client-side filter/sort engine (App.jsx)

Items reaching the client are JSON records whose numeric fields may be
null (the legacy scrape path emits nulls); they are modelled with
`Option ℚ` fields. -/

/-- A record as held by the client: numeric fields may be null. -/
structure ClientItem where
  id : String
  title : String
  buy : Option ℚ
  sell : Option ℚ
  instabuy : Option ℚ
  instasell : Option ℚ
  margin : Option ℚ
  coinsPerHour : Option ℚ
  href : Option String
  img : Option String
  raw : String
deriving DecidableEq

/-- The JSON image of an engine card on the client: every field present. -/
def toClientItem (c : Card) : ClientItem :=
  { id := c.id, title := c.title, buy := some c.buy, sell := some c.sell
    instabuy := some c.instabuy, instasell := some c.instasell
    margin := some c.margin, coinsPerHour := some c.coinsPerHour
    href := some c.href, img := some c.img, raw := c.raw }

/-- JavaScript `x || 0` on a number-or-null: null and 0 both map to 0. -/
def orZero (x : Option ℚ) : ℚ := x.getD 0

/-- The per-item recomputation in the client's `filtered` memo: read
`item.buy` as the high price and `item.sell` as the low price, apply the
live tax to the high side, and bound throughput by the slower side. -/
def clientRecompute (tax : ℚ) (it : ClientItem) : ClientItem :=
  let highPrice := orZero it.buy
  let lowPrice := orZero it.sell
  let newMargin := highPrice * taxMultiplier tax - lowPrice
  let volume := min (orZero it.instabuy) (orZero it.instasell)
  let newCPH := newMargin * volume
  { it with margin := some newMargin, coinsPerHour := some newCPH }

/-- The sort fields offered by the client's sort select. -/
inductive SortField where
  | buy | sell | instabuy | instasell | margin | coinsPerHour | title
deriving DecidableEq

/-- Sort direction. -/
inductive SortDir where
  | asc | desc
deriving DecidableEq

/-- Numeric value of a sort field on an item (`none` is a null field;
the title field carries no numeric value). -/
def fieldValue : SortField → ClientItem → Option ℚ
  | .buy, it => it.buy
  | .sell, it => it.sell
  | .instabuy, it => it.instabuy
  | .instasell, it => it.instasell
  | .margin, it => it.margin
  | .coinsPerHour, it => it.coinsPerHour
  | .title, _ => none

/-- The key `a[sortBy] ?? -Infinity` of the client comparator: null and
absent become bottom, the literal minus infinity. -/
def toKey (x : Option ℚ) : WithBot ℚ :=
  match x with
  | none => ⊥
  | some q => (q : WithBot ℚ)

/-- Order induced by the client comparator
`(a, b) => { if (A === B) return 0; return sortDir === 'asc' ? A - B : B - A }`
with `A = a[sortBy] ?? -Infinity`: ascending compares `A ≤ B`,
descending `B ≤ A`.  Sorting by title subtracts two strings, which is
NaN, and the SortCompare operation maps a NaN comparator result to +0,
so every pair ties. -/
def clientLE (f : SortField) (dir : SortDir) (a b : ClientItem) : Bool :=
  match f with
  | .title => true
  | _ =>
    match dir with
    | .asc => decide (toKey (fieldValue f a) ≤ toKey (fieldValue f b))
    | .desc => decide (toKey (fieldValue f b) ≤ toKey (fieldValue f a))

/-- The client's `sorted` memo: a stable sort (`Array.prototype.sort`)
of the filtered list under the comparator above. -/
def sortClient (f : SortField) (dir : SortDir) (l : List ClientItem) :
    List ClientItem :=
  l.mergeSort (clientLE f dir)

lemma clientLE_trans (f : SortField) (dir : SortDir) :
    ∀ a b c, clientLE f dir a b → clientLE f dir b c → clientLE f dir a c := by
  intro a b c hab hbc
  cases f <;> cases dir <;>
    simp only [clientLE, decide_eq_true_eq] at * <;>
    first
    | trivial
    | exact le_trans hab hbc
    | exact le_trans hbc hab

lemma clientLE_total (f : SortField) (dir : SortDir) :
    ∀ a b, clientLE f dir a b || clientLE f dir b a := by
  intro a b
  cases f <;> cases dir <;>
    simp only [clientLE, Bool.or_eq_true, decide_eq_true_eq] <;>
    first
    | trivial
    | exact le_total _ _

lemma toKey_eq_bot_iff (x : Option ℚ) : toKey x = ⊥ ↔ x = none := by
  cases x with
  | none => simp [toKey]
  | some q => simp [toKey]

lemma key_none_of_le_none {x y : Option ℚ}
    (h : decide (toKey x ≤ toKey y) = true) (hy : y = none) : x = none := by
  subst hy
  rw [decide_eq_true_eq] at h
  have hb : toKey x = ⊥ := le_bot_iff.mp (by simpa [toKey] using h)
  exact (toKey_eq_bot_iff x).mp hb

/-- A client item whose every numeric field is null. -/
def allNullItem : ClientItem :=
  ⟨"a", "A", none, none, none, none, none, none, none, none, ""⟩

/-- A client item with margin 5 (first of two tied records). -/
def marginFiveItemA : ClientItem :=
  ⟨"b", "B", none, none, none, none, some 5, none, none, none, ""⟩

/-- A client item with margin 5 (second of two tied records). -/
def marginFiveItemB : ClientItem :=
  ⟨"c", "C", none, none, none, none, some 5, none, none, none, ""⟩

/-- A small list mixing a null-margin record between two tied records. -/
def sortWitnessList : List ClientItem :=
  [marginFiveItemA, allNullItem, marginFiveItemB]

/-- The tie class of margin 5, used to exhibit stability. -/
def tiedAtFive : ClientItem → Bool := fun it => it.margin == some 5

/-! ## Result cache and served endpoint

The cache key is the template string `flips_${taxRate}`.  The number
interpolation is modelled by an executable rendering of the rational as
characters; like the ECMAScript number-to-string conversion it renders
distinct numbers distinctly, which is proved below. -/

/-- Decimal digits of a natural number, least significant first. -/
def natDigitsRev (n : ℕ) : List ℕ :=
  if n < 10 then [n]
  else n % 10 :: natDigitsRev (n / 10)
termination_by n
decreasing_by
  exact Nat.div_lt_self (by omega) (by omega)

/-- Value of a least-significant-first digit list. -/
def valRev (ds : List ℕ) : ℕ := ds.foldr (fun d a => d + 10 * a) 0

/-- Decimal rendering of a natural number. -/
def natChars (n : ℕ) : List Char := ((natDigitsRev n).reverse).map Nat.digitChar

/-- Decimal rendering of an integer, with a leading dash when negative. -/
def intChars (i : ℤ) : List Char :=
  if i < 0 then '-' :: natChars i.natAbs else natChars i.toNat

/-- Rendering of a rational used for the template-string interpolation
`flips_${taxRate}`: the integer when the denominator is 1, numerator
slash denominator otherwise.  It stands for the ECMAScript Number to
String conversion; all that matters downstream is injectivity. -/
def jsNumToChars (q : ℚ) : List Char :=
  if q.den = 1 then intChars q.num else intChars q.num ++ '/' :: natChars q.den

/-- String form of the rendering above. -/
def jsNumToString (q : ℚ) : String := ⟨jsNumToChars q⟩

/-- The cache key of `getBazaarData`: the fixed namespace `flips_`
followed by the interpolated tax rate. -/
def cacheKey (t : ℚ) : String := "flips_" ++ jsNumToString t

/-- The server's cache: an association of keys to stored ranked lists
(`node-cache` with a fixed TTL; expiry is modelled as a state
transition). -/
structure ServerState where
  cache : List (String × List Card)
deriving DecidableEq

/-- Cache read: the value stored under a key, if present. -/
def cacheGet (st : ServerState) (k : String) : Option (List Card) :=
  (st.cache.find? (fun kv => kv.1 == k)).map (fun kv => kv.2)

/-- Cache write: replace any entry under the key with the new value. -/
def cacheSet (st : ServerState) (k : String) (v : List Card) : ServerState :=
  ⟨(k, v) :: st.cache.filter (fun kv => !(kv.1 == k))⟩

/-- Outcome of the upstream snapshot fetch: a network failure, or a
response carrying the explicit success flag and the products map. -/
inductive FetchResult where
  | fail (msg : String)
  | ok (success : Bool) (products : List Product)

/-- The full `getBazaarData` routine: serve from cache when the key is
present; otherwise a failed fetch or an explicit `success: false` flag
raises an error and leaves the cache unchanged, and a successful fetch
derives, ranks and truncates the cards, stores them under the tax
rate's key, and returns them. -/
def getBazaarData (st : ServerState) (fetch : FetchResult) (taxRate : ℚ) :
    Except String (List Card) × ServerState :=
  match cacheGet st (cacheKey taxRate) with
  | some cached => (.ok cached, st)
  | none =>
    match fetch with
    | .fail msg => (.error msg, st)
    | .ok success products =>
      if !success then (.error "Hypixel API failed", st)
      else
        let topCards := deriveCards taxRate products
        (.ok topCards, cacheSet st (cacheKey taxRate) topCards)

/-- An HTTP response of the `/api/flips` endpoint. -/
structure ApiResponse where
  status : ℕ
  success : Bool
  data : List Card
  error : Option String
deriving DecidableEq

/-- Tax resolution of the endpoint:
`req.query.tax ? parseFloat(req.query.tax) : 1.25`; an absent or empty
(falsy) query parameter yields the default 1.25.  A non-numeric query
string gives NaN in JavaScript, which lies outside the rational
fragment modelled here (represented by 0; no claim exercises it). -/
def resolveTax (taxQuery : Option String) : ℚ :=
  match taxQuery with
  | none => 1.25
  | some s => if s = "" then 1.25 else ((jsParseFloat s.toList).getD 0)

/-- The `/api/flips` handler: resolve the tax parameter, run
`getBazaarData`, and answer 200 with the data or 500 with a structured
failure object. -/
def handleFlips (st : ServerState) (fetch : FetchResult)
    (taxQuery : Option String) : ApiResponse × ServerState :=
  let tax := resolveTax taxQuery
  match getBazaarData st fetch tax with
  | (.ok cards, st') => (⟨200, true, cards, none⟩, st')
  | (.error msg, st') => (⟨500, false, [], some msg⟩, st')

/-- States of the server cache reachable from startup: the empty cache,
any request step, and TTL expiry of an entry. -/
inductive Reachable : ServerState → Prop where
  | init : Reachable ⟨[]⟩
  | step (st : ServerState) (fetch : FetchResult) (t : ℚ) :
      Reachable st → Reachable (getBazaarData st fetch t).2
  | expire (st : ServerState) (k : String) :
      Reachable st → Reachable ⟨st.cache.filter (fun kv => !(kv.1 == k))⟩

/-- The state after one successful request against an empty cache. -/
def reachedState : ServerState := (getBazaarData ⟨[]⟩ (.ok true []) 0).2

/-! ### Injectivity of the cache key -/

lemma valRev_natDigitsRev : ∀ n : ℕ, valRev (natDigitsRev n) = n := by
  intro n
  induction n using Nat.strong_induction_on with
  | _ n ih =>
    rw [natDigitsRev]
    split
    · simp [valRev]
    · rename_i h
      have hlt : n / 10 < n := Nat.div_lt_self (by omega) (by omega)
      have := ih (n / 10) hlt
      simp only [valRev, List.foldr_cons] at this ⊢
      rw [this]
      omega

lemma natDigitsRev_lt_ten : ∀ n : ℕ, ∀ d ∈ natDigitsRev n, d < 10 := by
  intro n
  induction n using Nat.strong_induction_on with
  | _ n ih =>
    rw [natDigitsRev]
    split
    · rename_i h
      intro d hd
      simp at hd
      omega
    · rename_i h
      have hlt : n / 10 < n := Nat.div_lt_self (by omega) (by omega)
      intro d hd
      rcases List.mem_cons.mp hd with h1 | h1
      · subst h1
        omega
      · exact ih (n / 10) hlt d h1

lemma natDigitsRev_ne_nil (n : ℕ) : natDigitsRev n ≠ [] := by
  rw [natDigitsRev]
  split <;> simp

lemma natDigitsRev_inj {m n : ℕ} (h : natDigitsRev m = natDigitsRev n) :
    m = n := by
  have := valRev_natDigitsRev m
  rw [h, valRev_natDigitsRev] at this
  omega

lemma digitChar_inj_lt : ∀ a < 10, ∀ b < 10,
    Nat.digitChar a = Nat.digitChar b → a = b := by
  decide

lemma digitChar_isDigit : ∀ a < 10, (Nat.digitChar a).isDigit = true := by
  decide

lemma map_digitChar_inj : ∀ (xs ys : List ℕ),
    (∀ d ∈ xs, d < 10) → (∀ d ∈ ys, d < 10) →
    xs.map Nat.digitChar = ys.map Nat.digitChar → xs = ys := by
  intro xs
  induction xs with
  | nil =>
    intro ys _ _ h
    cases ys with
    | nil => rfl
    | cons b bs => simp at h
  | cons a as ih =>
    intro ys hxs hys h
    cases ys with
    | nil => simp at h
    | cons b bs =>
      simp only [List.map_cons, List.cons.injEq] at h
      have ha : a = b := digitChar_inj_lt a (hxs a (by simp)) b (hys b (by simp)) h.1
      have hrest := ih bs (fun d hd => hxs d (by simp [hd]))
        (fun d hd => hys d (by simp [hd])) h.2
      rw [ha, hrest]

lemma natChars_inj {m n : ℕ} (h : natChars m = natChars n) : m = n := by
  unfold natChars at h
  have h2 := map_digitChar_inj _ _
    (fun d hd => natDigitsRev_lt_ten m d (List.mem_reverse.mp hd))
    (fun d hd => natDigitsRev_lt_ten n d (List.mem_reverse.mp hd)) h
  exact natDigitsRev_inj (List.reverse_injective h2)

lemma natChars_isDigit (n : ℕ) : ∀ c ∈ natChars n, c.isDigit = true := by
  intro c hc
  unfold natChars at hc
  obtain ⟨d, hd, rfl⟩ := List.mem_map.mp hc
  exact digitChar_isDigit d (natDigitsRev_lt_ten n d (List.mem_reverse.mp hd))

lemma natChars_ne_nil (n : ℕ) : natChars n ≠ [] := by
  unfold natChars
  simp [natDigitsRev_ne_nil n]

lemma intChars_inj {i j : ℤ} (h : intChars i = intChars j) : i = j := by
  unfold intChars at h
  split at h <;> split at h
  · rename_i hi hj
    simp only [List.cons.injEq, true_and] at h
    have := natChars_inj h
    omega
  · rename_i hi hj
    exfalso
    cases hn : natChars j.toNat with
    | nil => exact natChars_ne_nil _ hn
    | cons c cs =>
      rw [hn] at h
      have hc : c = '-' := by
        have := h
        simp only [List.cons.injEq] at this
        exact this.1.symm
      have hdig := natChars_isDigit j.toNat c (by rw [hn]; simp)
      rw [hc] at hdig
      simp at hdig
  · rename_i hi hj
    exfalso
    cases hn : natChars i.toNat with
    | nil => exact natChars_ne_nil _ hn
    | cons c cs =>
      rw [hn] at h
      have hc : c = '-' := by
        simp only [List.cons.injEq] at h
        exact h.1
      have hdig := natChars_isDigit i.toNat c (by rw [hn]; simp)
      rw [hc] at hdig
      simp at hdig
  · rename_i hi hj
    have := natChars_inj h
    omega

lemma intChars_no_slash (i : ℤ) : '/' ∉ intChars i := by
  unfold intChars
  split
  · intro hmem
    rcases List.mem_cons.mp hmem with h | h
    · simp at h
    · have := natChars_isDigit _ _ h
      simp at this
  · intro hmem
    have := natChars_isDigit _ _ hmem
    simp at this

lemma append_slash_inj : ∀ (xs xs' ys ys' : List Char), '/' ∉ xs → '/' ∉ xs' →
    xs ++ '/' :: ys = xs' ++ '/' :: ys' → xs = xs' ∧ ys = ys' := by
  intro xs
  induction xs with
  | nil =>
    intro xs' ys ys' _ hx' h
    cases xs' with
    | nil =>
      simp only [List.nil_append, List.cons.injEq] at h
      exact ⟨rfl, h.2⟩
    | cons b bs =>
      simp only [List.nil_append, List.cons_append, List.cons.injEq] at h
      exfalso
      exact hx' (by simp [← h.1])
  | cons a as ih =>
    intro xs' ys ys' hx hx' h
    cases xs' with
    | nil =>
      simp only [List.cons_append, List.nil_append, List.cons.injEq] at h
      exfalso
      exact hx (by simp [h.1])
    | cons b bs =>
      simp only [List.cons_append, List.cons.injEq] at h
      have hab := h.1
      have := ih bs ys ys' (fun hm => hx (List.mem_cons_of_mem _ hm))
        (fun hm => hx' (List.mem_cons_of_mem _ hm)) h.2
      exact ⟨by rw [hab, this.1], this.2⟩

lemma jsNumToChars_inj {p q : ℚ} (h : jsNumToChars p = jsNumToChars q) :
    p = q := by
  unfold jsNumToChars at h
  split at h <;> split at h
  · rename_i hp hq
    exact Rat.ext (intChars_inj h) (hp.trans hq.symm)
  · rename_i hp hq
    exfalso
    have : '/' ∈ intChars p.num := by
      rw [h]
      simp
    exact intChars_no_slash _ this
  · rename_i hp hq
    exfalso
    have : '/' ∈ intChars q.num := by
      rw [← h]
      simp
    exact intChars_no_slash _ this
  · rename_i hp hq
    obtain ⟨h1, h2⟩ := append_slash_inj _ _ _ _ (intChars_no_slash p.num)
      (intChars_no_slash q.num) h
    exact Rat.ext (intChars_inj h1) (natChars_inj h2)

lemma cacheKey_inj {t₁ t₂ : ℚ} (h : cacheKey t₁ = cacheKey t₂) : t₁ = t₂ := by
  unfold cacheKey jsNumToString at h
  have hd : ("flips_".data ++ jsNumToChars t₁)
      = ("flips_".data ++ jsNumToChars t₂) := by
    have := congrArg String.data h
    simpa [String.data_append] using this
  exact jsNumToChars_inj (List.append_cancel_left hd)

/-! ### The cache invariant -/

lemma cache_invariant {st : ServerState} (h : Reachable st) :
    ∀ kv ∈ st.cache, ∃ t products,
      kv.1 = cacheKey t ∧ kv.2 = deriveCards t products := by
  induction h with
  | init => simp
  | step st fetch t hr ih =>
    intro kv hkv
    unfold getBazaarData at hkv
    cases hcg : cacheGet st (cacheKey t) with
    | some cached =>
      rw [hcg] at hkv
      exact ih kv hkv
    | none =>
      rw [hcg] at hkv
      cases fetch with
      | fail msg => exact ih kv hkv
      | ok success products =>
        by_cases hs : success = true
        · simp only [hs, Bool.not_true, Bool.false_eq_true, if_false] at hkv
          simp only [cacheSet, List.mem_cons] at hkv
          rcases hkv with hkv | hkv
          · exact ⟨t, products, by rw [hkv], by rw [hkv]⟩
          · exact ih kv (List.mem_of_mem_filter hkv)
        · simp only [Bool.not_eq_true] at hs
          simp only [hs, Bool.not_false, if_true] at hkv
          exact ih kv hkv
  | expire st k hr ih =>
    intro kv hkv
    exact ih kv (List.mem_of_mem_filter hkv)

lemma getBazaarData_ok_cards {st : ServerState} (h : Reachable st)
    {t : ℚ} {fetch : FetchResult} {cards : List Card} {st' : ServerState}
    (hok : getBazaarData st fetch t = (.ok cards, st')) :
    ∃ products, cards = deriveCards t products := by
  unfold getBazaarData at hok
  cases hcg : cacheGet st (cacheKey t) with
  | some cached =>
    rw [hcg] at hok
    have hc : cached = cards := by
      have h1 := congrArg Prod.fst hok
      simpa using h1
    have hfind : ∃ kv ∈ st.cache, kv.1 = cacheKey t ∧ kv.2 = cached := by
      unfold cacheGet at hcg
      cases hf : st.cache.find? (fun kv => kv.1 == cacheKey t) with
      | none =>
        rw [hf] at hcg
        simp at hcg
      | some kv =>
        rw [hf] at hcg
        simp at hcg
        have hmem := List.mem_of_find?_eq_some hf
        have hpred := List.find?_some hf
        exact ⟨kv, hmem, by simpa using hpred, hcg⟩
    obtain ⟨kv, hmem, hk, hv⟩ := hfind
    obtain ⟨tt, products, hk2, hv2⟩ := cache_invariant h kv hmem
    have htt : tt = t := cacheKey_inj (hk2.symm.trans hk)
    subst htt
    refine ⟨products, ?_⟩
    rw [← hc, ← hv, hv2]
  | none =>
    rw [hcg] at hok
    cases fetch with
    | fail msg => simp at hok
    | ok success products =>
      by_cases hs : success = true
      · simp only [hs, Bool.not_true, Bool.false_eq_true, if_false] at hok
        have h1 := congrArg Prod.fst hok
        simp only [] at h1
        refine ⟨products, ?_⟩
        have h2 : (Except.ok (deriveCards t products) : Except String (List Card))
            = Except.ok cards := h1
        simpa using h2.symm
      · simp only [Bool.not_eq_true] at hs
        simp only [hs, Bool.not_false, if_true] at hok
        simp at hok

/-! ## Concrete quotes used as witnesses and counterexamples -/

/-- The specification's worked example: top buy order 100, top sell order 90,
weekly volumes 2016 on both sides. -/
def exampleQuote : Product := ⟨"EXAMPLE_ITEM", [⟨100⟩], [⟨90⟩], ⟨2016, 2016⟩⟩

/-- A quote with an empty sell-order book but a high buy-order price and
ample volume on both weekly counters. -/
def emptySellBookQuote : Product := ⟨"NO_SELL_ORDERS", [⟨100⟩], [], ⟨16800, 16800⟩⟩

/-- The specification's worked example with the weekly buy volume zeroed. -/
def zeroBuyVolumeQuote : Product := ⟨"ZERO_BUY_VOLUME", [⟨100⟩], [⟨90⟩], ⟨0, 2016⟩⟩

/-! ## C1-C3: the derivation engine's margin, qualification and ranking -/

/-- C1: for every raw quote whose derived reference prices satisfy
highPrice > 0 and lowPrice > 0, and for every tax rate in [0, 100], the
engine computes margin exactly as highPrice * (1 - taxRatePercent/100) -
lowPrice, with tax applied only to the high-price (sale) side: both the
engine's internal margin computation and the margin field of any emitted
card equal the spec formula. -/
theorem c1_margin_tax_formula (p : Product) (t : ℚ)
    (h0 : 0 ≤ t) (h100 : t ≤ 100)
    (hhigh : 0 < buyPriceOf p) (hlow : 0 < sellPriceOf p) :
    marginCalc t (buyPriceOf p) (sellPriceOf p)
      = marginSpecFormula t (buyPriceOf p) (sellPriceOf p)
    ∧ ∀ c, deriveCard t p = some c →
        c.margin = marginSpecFormula t (buyPriceOf p) (sellPriceOf p) := by
  constructor
  · rfl
  · intro c hc
    simp only [deriveCard] at hc
    split_ifs at hc with h1 h2
    · cases hc
      rfl

/-- Witness for C1 at the specification's worked example with tax 1.125:
all hypotheses hold and the margin equals the spec formula. -/
theorem c1_margin_tax_formula_witness :
    (0 ≤ (9/8 : ℚ) ∧ (9/8 : ℚ) ≤ 100
      ∧ 0 < buyPriceOf exampleQuote ∧ 0 < sellPriceOf exampleQuote)
    ∧ (marginCalc (9/8) (buyPriceOf exampleQuote) (sellPriceOf exampleQuote)
        = marginSpecFormula (9/8) (buyPriceOf exampleQuote) (sellPriceOf exampleQuote)
      ∧ ∀ c, deriveCard (9/8) exampleQuote = some c →
          c.margin = marginSpecFormula (9/8) (buyPriceOf exampleQuote)
            (sellPriceOf exampleQuote)) :=
  ⟨⟨by norm_num, by norm_num,
    by norm_num [buyPriceOf, getMeanPrice, exampleQuote],
    by norm_num [sellPriceOf, getMeanPrice, exampleQuote]⟩,
   c1_margin_tax_formula exampleQuote (9/8) (by norm_num) (by norm_num)
    (by norm_num [buyPriceOf, getMeanPrice, exampleQuote])
    (by norm_num [sellPriceOf, getMeanPrice, exampleQuote])⟩

/-- C2 (amended): the engine emits a record for a quote if and only if
highPrice > 0, lowPrice > 0, margin > 0 and min(instabuyRate,
instasellRate) > 10 with instabuyRate = round(weeklyBuyVolume/168) and
instasellRate = round(weeklySellVolume/168); moreover a quote with
non-negative weekly volumes one of which is zero yields
min(instabuyRate, instasellRate) = 0 and is excluded. -/
theorem c2_qualification_rule (t : ℚ) (p : Product) :
    ((deriveCard t p).isSome
      ↔ (0 < buyPriceOf p ∧ 0 < sellPriceOf p
         ∧ 0 < marginCalc t (buyPriceOf p) (sellPriceOf p)
         ∧ 10 < min (jsRound (p.quick_status.buyMovingWeek / 168))
                    (jsRound (p.quick_status.sellMovingWeek / 168))))
    ∧ (0 ≤ p.quick_status.buyMovingWeek → 0 ≤ p.quick_status.sellMovingWeek →
       p.quick_status.buyMovingWeek = 0 ∨ p.quick_status.sellMovingWeek = 0 →
       min (jsRound (p.quick_status.buyMovingWeek / 168))
           (jsRound (p.quick_status.sellMovingWeek / 168)) = 0
       ∧ deriveCard t p = none) := by
  have hiff : (deriveCard t p).isSome
      ↔ (0 < buyPriceOf p ∧ 0 < sellPriceOf p
         ∧ 0 < marginCalc t (buyPriceOf p) (sellPriceOf p)
         ∧ 10 < min (jsRound (p.quick_status.buyMovingWeek / 168))
                    (jsRound (p.quick_status.sellMovingWeek / 168))) := by
    simp only [deriveCard, buyPriceOf, sellPriceOf, marginCalc]
    split_ifs with h1 h2
    · simp only [Option.isSome_none, Bool.false_eq_true, false_iff]
      rintro ⟨ha, hb, -, -⟩
      rcases h1 with h | h
      · exact absurd ha (not_lt.mpr h)
      · exact absurd hb (not_lt.mpr h)
    · push_neg at h1
      simp only [Option.isSome_some, true_iff]
      exact ⟨h1.1, h1.2, h2.1, h2.2⟩
    · push_neg at h1
      simp only [Option.isSome_none, Bool.false_eq_true, false_iff]
      rintro ⟨-, -, hm, hmin⟩
      exact h2 ⟨hm, hmin⟩
  refine ⟨hiff, fun hb hs hzero => ?_⟩
  have hround : ∀ v : ℚ, 0 ≤ v → 0 ≤ jsRound (v / 168) := by
    intro v hv
    have : (0 : ℚ) ≤ v / 168 + 1/2 := by positivity
    simpa [jsRound] using Int.floor_nonneg.mpr this
  have hzr : jsRound ((0 : ℚ) / 168) = 0 := by
    norm_num [jsRound]
  have hmin : min (jsRound (p.quick_status.buyMovingWeek / 168))
      (jsRound (p.quick_status.sellMovingWeek / 168)) = 0 := by
    rcases hzero with h | h
    · rw [h, hzr]
      exact min_eq_left (hround _ hs)
    · rw [h, hzr]
      exact min_eq_right (hround _ hb)
  refine ⟨hmin, ?_⟩
  rw [← Option.not_isSome_iff_eq_none, hiff]
  rintro ⟨-, -, -, h10⟩
  rw [hmin] at h10
  exact absurd h10 (by norm_num)

/-- Witness for C2 at the zero-buy-volume quote: the hypotheses of the
zero-volume conjunct hold and the quote is excluded, and the emission
equivalence instantiates there as well. -/
theorem c2_qualification_rule_witness :
    (0 ≤ zeroBuyVolumeQuote.quick_status.buyMovingWeek
      ∧ 0 ≤ zeroBuyVolumeQuote.quick_status.sellMovingWeek
      ∧ zeroBuyVolumeQuote.quick_status.buyMovingWeek = 0)
    ∧ (min (jsRound (zeroBuyVolumeQuote.quick_status.buyMovingWeek / 168))
          (jsRound (zeroBuyVolumeQuote.quick_status.sellMovingWeek / 168)) = 0
       ∧ deriveCard (9/8) zeroBuyVolumeQuote = none) :=
  ⟨⟨by norm_num [zeroBuyVolumeQuote], by norm_num [zeroBuyVolumeQuote],
    by norm_num [zeroBuyVolumeQuote]⟩,
   (c2_qualification_rule (9/8) zeroBuyVolumeQuote).2
    (by norm_num [zeroBuyVolumeQuote]) (by norm_num [zeroBuyVolumeQuote])
    (Or.inl (by norm_num [zeroBuyVolumeQuote]))⟩

/-- Counterexample to C2 as stated: a quote with an empty sell-order book
has margin > 0 and min rate > 10 at tax 1.25, yet the engine emits no
record for it (the price qualification rejects it first). -/
theorem c2_counterexample_empty_sell_book :
    0 < marginCalc (5/4) (buyPriceOf emptySellBookQuote) (sellPriceOf emptySellBookQuote)
    ∧ 10 < min (jsRound (emptySellBookQuote.quick_status.buyMovingWeek / 168))
               (jsRound (emptySellBookQuote.quick_status.sellMovingWeek / 168))
    ∧ deriveCard (5/4) emptySellBookQuote = none := by
  refine ⟨?_, ?_, ?_⟩
  · norm_num [marginCalc, buyPriceOf, sellPriceOf, getMeanPrice,
      emptySellBookQuote, taxMultiplier]
  · norm_num [jsRound, emptySellBookQuote]
  · norm_num [deriveCard, emptySellBookQuote, getMeanPrice]

/-- C7: for every record list, sort field and direction, the client sort
is stable (a permutation of the input in which any class of mutually
tied records keeps its relative input order), the output is ordered by
the comparator, and a record whose sort-field value is null is ordered
as if its value were minus infinity: ascending places null-valued
records first, descending places them last. -/
theorem c7_client_sort_stable (f : SortField) (dir : SortDir)
    (l : List ClientItem) :
    List.Perm (sortClient f dir l) l
    ∧ (sortClient f dir l).Pairwise (fun a b => clientLE f dir a b = true)
    ∧ (∀ p : ClientItem → Bool,
        (∀ a b, p a = true → p b = true → clientLE f dir a b = true) →
        (sortClient f dir l).filter p = l.filter p)
    ∧ (dir = .asc → (sortClient f dir l).Pairwise
        (fun a b => fieldValue f b = none → fieldValue f a = none))
    ∧ (dir = .desc → (sortClient f dir l).Pairwise
        (fun a b => fieldValue f a = none → fieldValue f b = none)) := by
  have hperm : List.Perm (sortClient f dir l) l := List.mergeSort_perm l _
  have hpair : (sortClient f dir l).Pairwise
      (fun a b => clientLE f dir a b = true) :=
    List.sorted_mergeSort (clientLE_trans f dir) (clientLE_total f dir) l
  refine ⟨hperm, hpair, ?_, ?_, ?_⟩
  · intro p hp
    have hsub : List.Sublist (l.filter p) l := List.filter_sublist l
    have hpw : (l.filter p).Pairwise (fun a b => clientLE f dir a b = true) := by
      apply List.pairwise_of_forall_mem_list
      intro a ha b hb
      exact hp a b (List.mem_filter.mp ha).2 (List.mem_filter.mp hb).2
    have hsub2 : List.Sublist (l.filter p) (sortClient f dir l) :=
      List.sublist_mergeSort (clientLE_trans f dir) (clientLE_total f dir)
        hpw hsub
    have hidem : (l.filter p).filter p = l.filter p := by
      simp [List.filter_filter]
    have hsub3 : List.Sublist (l.filter p) ((sortClient f dir l).filter p) := by
      have h := hsub2.filter p
      rwa [hidem] at h
    have hlen : ((sortClient f dir l).filter p).length = (l.filter p).length :=
      (hperm.filter p).length_eq
    exact (hsub3.eq_of_length hlen.symm).symm
  · intro hdir
    subst hdir
    refine hpair.imp ?_
    intro a b hab hbnone
    cases f with
    | title => rfl
    | buy => exact key_none_of_le_none hab hbnone
    | sell => exact key_none_of_le_none hab hbnone
    | instabuy => exact key_none_of_le_none hab hbnone
    | instasell => exact key_none_of_le_none hab hbnone
    | margin => exact key_none_of_le_none hab hbnone
    | coinsPerHour => exact key_none_of_le_none hab hbnone
  · intro hdir
    subst hdir
    refine hpair.imp ?_
    intro a b hab hanone
    cases f with
    | title => rfl
    | buy => exact key_none_of_le_none hab hanone
    | sell => exact key_none_of_le_none hab hanone
    | instabuy => exact key_none_of_le_none hab hanone
    | instasell => exact key_none_of_le_none hab hanone
    | margin => exact key_none_of_le_none hab hanone
    | coinsPerHour => exact key_none_of_le_none hab hanone

/-- Witness for C7 on a concrete list: the margin-5 records form a tie
class, the stable sort keeps their relative order, and with descending
direction the null-margin record is ordered after any non-null one. -/
theorem c7_client_sort_stable_witness :
    (∀ a b : ClientItem, tiedAtFive a = true → tiedAtFive b = true →
        clientLE .margin .desc a b = true)
    ∧ (sortClient .margin .desc sortWitnessList).filter tiedAtFive
        = sortWitnessList.filter tiedAtFive
    ∧ (sortClient .margin .desc sortWitnessList).Pairwise
        (fun a b => fieldValue .margin a = none → fieldValue .margin b = none) := by
  have hp : ∀ a b : ClientItem, tiedAtFive a = true → tiedAtFive b = true →
      clientLE .margin .desc a b = true := by
    intro a b ha hb
    simp only [tiedAtFive, beq_iff_eq] at ha hb
    simp [clientLE, fieldValue, toKey, ha, hb]
  exact ⟨hp,
    (c7_client_sort_stable .margin .desc sortWitnessList).2.2.1 tiedAtFive hp,
    (c7_client_sort_stable .margin .desc sortWitnessList).2.2.2.2 rfl⟩

/-- C4 (code evaluated at the failing input): the engine stores the low
reference price in the record's buy field and the high one in its sell
field, while the client reads buy as the high price; recomputing the
spec's worked example (highPrice 100, lowPrice 90) at tax 0 therefore
yields margin -10, the negation of highPrice - lowPrice = 10; in
general the client's margin at tax 0 is stored buy minus stored sell. -/
theorem c4_client_recompute_negates_margin :
    ((deriveCard (9/8) exampleQuote).map
       (fun c => (clientRecompute 0 (toClientItem c)).margin)) = some (some (-10))
    ∧ buyPriceOf exampleQuote - sellPriceOf exampleQuote = 10
    ∧ (∀ c : Card, (clientRecompute 0 (toClientItem c)).margin
        = some (c.buy - c.sell)) := by
  refine ⟨?_, ?_, ?_⟩
  · norm_num [deriveCard, exampleQuote, getMeanPrice, taxMultiplier, jsRound,
      clientRecompute, toClientItem, orZero]
  · norm_num [buyPriceOf, sellPriceOf, exampleQuote, getMeanPrice]
  · intro c
    simp [clientRecompute, toClientItem, orZero, taxMultiplier]

/-- C3: for every input snapshot and tax rate, the ranked list produced
by the derivation engine is sorted descending by coinsPerHour and
contains at most 100 entries. -/
theorem c3_sorted_and_truncated (t : ℚ) (products : List Product) :
    (deriveCards t products).Pairwise
      (fun a b => b.coinsPerHour ≤ a.coinsPerHour)
    ∧ (deriveCards t products).length ≤ 100 := by
  constructor
  · have htrans : ∀ a b c : Card, cphDescLE a b → cphDescLE b c →
        cphDescLE a c := by
      intro a b c hab hbc
      simp only [cphDescLE, decide_eq_true_eq] at *
      exact le_trans hbc hab
    have htotal : ∀ a b : Card, cphDescLE a b || cphDescLE b a := by
      intro a b
      simp only [cphDescLE, Bool.or_eq_true, decide_eq_true_eq]
      exact le_total _ _
    have hs : ((products.filterMap (deriveCard t)).mergeSort cphDescLE).Pairwise
        (fun a b => cphDescLE a b = true) :=
      List.sorted_mergeSort htrans htotal (products.filterMap (deriveCard t))
    have hp := hs.sublist (List.take_sublist 100 _)
    exact hp.imp (fun h => by simpa [cphDescLE] using h)
  · simp [deriveCards]

/-! ## C5, C8, C9: endpoint default, failure path, cache isolation -/

/-- C5 (amended): when the served endpoint receives no tax parameter (or
an empty, falsy one) it derives at the default tax rate 1.25 percent —
not 1.125 — so a request without the parameter behaves exactly like a
request with tax=1.25. -/
theorem c5_default_tax_amended :
    resolveTax none = 5/4
    ∧ resolveTax (some "") = 5/4
    ∧ (∀ (st : ServerState) (fetch : FetchResult),
        handleFlips st fetch none = handleFlips st fetch (some "1.25")) := by
  have h1 : resolveTax none = 5/4 := by norm_num [resolveTax]
  have hfrac : fracValue ['2', '5'] = (1/4 : ℚ) := by
    simp only [fracValue, List.foldr_cons, List.foldr_nil,
      show digitVal '2' = 2 from by decide, show digitVal '5' = 5 from by decide]
    norm_num
  have hp : resolveTax (some "1.25") = 5/4 := by
    have hpf : jsParseFloat ("1.25".toList)
        = some ((decValue ['1'] : ℚ) + fracValue ['2', '5']) := rfl
    rw [show resolveTax (some "1.25")
        = (jsParseFloat ("1.25".toList)).getD 0 from rfl, hpf]
    simp only [Option.getD_some, hfrac,
      show decValue ['1'] = 1 from by decide]
    norm_num
  refine ⟨h1, by norm_num [resolveTax], ?_⟩
  intro st fetch
  simp only [handleFlips, h1, hp]

/-- Counterexample to C5 as stated: without a tax parameter the endpoint
resolves the rate to 1.25, not 1.125, and on the spec's worked example
the returned margin is 8.75 where derivation at 1.125 would give 8.875. -/
theorem c5_counterexample_default_is_1_25 :
    resolveTax none = 5/4
    ∧ (5/4 : ℚ) ≠ 1.125
    ∧ (handleFlips ⟨[]⟩ (.ok true [exampleQuote]) none).1.data.map Card.margin
        = [35/4]
    ∧ (35/4 : ℚ) ≠ marginSpecFormula (1.125) (buyPriceOf exampleQuote)
        (sellPriceOf exampleQuote) := by
  have h1 : resolveTax none = 5/4 := by norm_num [resolveTax]
  have hmap : (deriveCard (5/4) exampleQuote).map Card.margin = some (35/4) := by
    norm_num [deriveCard, exampleQuote, getMeanPrice, taxMultiplier, jsRound]
  obtain ⟨c, hc, hm⟩ := Option.map_eq_some'.mp hmap
  have hcards : deriveCards (5/4) [exampleQuote] = [c] := by
    simp [deriveCards, List.filterMap_cons, hc]
  have hmiss : cacheGet ⟨[]⟩ (cacheKey (5/4)) = none := rfl
  refine ⟨h1, by norm_num, ?_, ?_⟩
  · simp only [handleFlips, h1, getBazaarData, hmiss, Bool.not_true,
      Bool.false_eq_true, if_false, hcards]
    simp [hm]
  · norm_num [marginSpecFormula, buyPriceOf, sellPriceOf, exampleQuote,
      getMeanPrice]

/-- C8: on a cache miss, a failed upstream fetch or an explicit
success=false flag makes the engine raise the error and leave the cache
unchanged (no records are produced), and the endpoint then answers with
HTTP 500 and the structured failure object. -/
theorem c8_fetch_failure_raises (st : ServerState) (t : ℚ) (msg : String)
    (hmiss : cacheGet st (cacheKey t) = none) :
    getBazaarData st (.fail msg) t = (.error msg, st)
    ∧ (∀ products, getBazaarData st (.ok false products) t
        = (.error "Hypixel API failed", st))
    ∧ (∀ q, resolveTax q = t →
        handleFlips st (.fail msg) q = (⟨500, false, [], some msg⟩, st)
        ∧ ∀ products, handleFlips st (.ok false products) q
            = (⟨500, false, [], some "Hypixel API failed"⟩, st)) := by
  have h1 : getBazaarData st (.fail msg) t = (.error msg, st) := by
    simp [getBazaarData, hmiss]
  have h2 : ∀ products, getBazaarData st (.ok false products) t
      = (.error "Hypixel API failed", st) := by
    intro products
    simp [getBazaarData, hmiss]
  refine ⟨h1, h2, ?_⟩
  intro q hq
  constructor
  · simp only [handleFlips, hq, h1]
  · intro products
    simp only [handleFlips, hq, h2 products]

/-- Witness for C8 at the empty cache with tax 1.25 and message "boom":
the failed fetch propagates as an error with the state unchanged and
the endpoint answers 500 with the structured failure object. -/
theorem c8_fetch_failure_raises_witness :
    (cacheGet ⟨[]⟩ (cacheKey (5/4)) = none ∧ resolveTax none = 5/4)
    ∧ getBazaarData ⟨[]⟩ (.fail "boom") (5/4) = (.error "boom", ⟨[]⟩)
    ∧ handleFlips ⟨[]⟩ (.fail "boom") none
        = (⟨500, false, [], some "boom"⟩, ⟨[]⟩) := by
  have hmiss : cacheGet ⟨[]⟩ (cacheKey (5/4)) = none := rfl
  have hq : resolveTax none = 5/4 := by norm_num [resolveTax]
  obtain ⟨g1, g2, g3⟩ := c8_fetch_failure_raises ⟨[]⟩ (5/4) "boom" hmiss
  exact ⟨⟨hmiss, hq⟩, g1, (g3 none hq).1⟩

/-- C9: the cache key is the fixed namespace plus the interpolated tax
rate; distinct tax rates give distinct keys; in every reachable server
state each cached entry was stored under the key of the tax rate it was
derived with; consequently a request served at tax t only ever returns
a list derived at t. -/
theorem c9_cache_key_per_tax :
    (∀ t : ℚ, cacheKey t = "flips_" ++ jsNumToString t)
    ∧ (∀ t₁ t₂ : ℚ, t₁ ≠ t₂ → cacheKey t₁ ≠ cacheKey t₂)
    ∧ (∀ st : ServerState, Reachable st → ∀ kv ∈ st.cache,
        ∃ t products, kv.1 = cacheKey t ∧ kv.2 = deriveCards t products)
    ∧ (∀ st : ServerState, Reachable st →
        ∀ (t : ℚ) (fetch : FetchResult) (cards : List Card)
          (st' : ServerState),
        getBazaarData st fetch t = (.ok cards, st') →
        ∃ products, cards = deriveCards t products) := by
  refine ⟨fun t => rfl, ?_, ?_, ?_⟩
  · intro t₁ t₂ hne h
    exact hne (cacheKey_inj h)
  · intro st h kv hkv
    exact cache_invariant h kv hkv
  · intro st h t fetch cards st' hok
    exact getBazaarData_ok_cards h hok

/-- Witness for C9: the keys of rates 1 and 2 differ, and in the state
reached by one successful request at rate 0 the single cache entry is
keyed and valued by that rate's derivation. -/
theorem c9_cache_key_per_tax_witness :
    ((1 : ℚ) ≠ 2 ∧ cacheKey 1 ≠ cacheKey 2)
    ∧ (Reachable reachedState
       ∧ (cacheKey 0, ([] : List Card)) ∈ reachedState.cache
       ∧ ∃ t products, (cacheKey 0, ([] : List Card)).1 = cacheKey t
          ∧ (cacheKey 0, ([] : List Card)).2 = deriveCards t products) := by
  have hre : Reachable reachedState :=
    Reachable.step ⟨[]⟩ (.ok true []) 0 Reachable.init
  have hmem : (cacheKey 0, ([] : List Card)) ∈ reachedState.cache := by
    show _ ∈ (getBazaarData ⟨[]⟩ (.ok true []) 0).2.cache
    simp [getBazaarData, cacheGet, cacheSet, deriveCards]
  exact ⟨⟨by norm_num, c9_cache_key_per_tax.2.1 1 2 (by norm_num)⟩, hre, hmem,
    c9_cache_key_per_tax.2.2.1 reachedState hre _ hmem⟩

end SkyblockFlips
